import Mathlib

/-!
Verification of the ReadyTech LLM Survey Bot repository against its
natural-language specification.

The repository ships a React frontend (admin console, form-mode and
chat-mode survey taking) and a FastAPI backend.  The backend source
(reference resolution, context assembly, scoring, re-score propagation)
is not part of the checked-in sources here, so those components are
modelled from the specification text; the frontend components are
embedded directly from the JavaScript source files.

Texts are modelled as `String` / `List Char`; JS numbers that hold
integers are `Nat` or `Int`; JS floats (scores, thresholds) are `ℚ`.
-/

namespace SurveyBot

/-- Lowercase every character, the embedding of JS `String.toLowerCase`. -/
def lowerL (l : List Char) : List Char := l.map Char.toLower

/-- Check that `pat` occurs at the very start of `hay`. -/
def startsWith : List Char → List Char → Bool
  | [], _ => true
  | _ :: _, [] => false
  | p :: ps, h :: hs => p == h && startsWith ps hs

/-- Check that `pat` occurs as a contiguous substring of `hay`, the
embedding of JS `String.prototype.includes`. -/
def hasSub (hay pat : List Char) : Bool :=
  match hay with
  | [] => pat.isEmpty
  | _ :: t => startsWith pat hay || hasSub t pat

/-- Whitespace test used by trimming. -/
def isWs (c : Char) : Bool := c == ' ' || c == '\t' || c == '\n' || c == '\r'

/-- Remove leading and trailing whitespace, the embedding of JS
`String.prototype.trim`. -/
def trimChars (l : List Char) : List Char :=
  ((l.dropWhile isWs).reverse.dropWhile isWs).reverse

/-- String-level trim. -/
def trimStr (s : String) : String := ⟨trimChars s.data⟩

/-- Minimum of a list of orders (`none` on the empty list). -/
def listMin : List Nat → Option Nat
  | [] => none
  | x :: xs =>
    match listMin xs with
    | none => some x
    | some m => some (min x m)

/-- Maximum of a list of orders (`none` on the empty list). -/
def listMax : List Nat → Option Nat
  | [] => none
  | x :: xs =>
    match listMax xs with
    | none => some x
    | some m => some (max x m)

/-- Numeric value of a digit run. -/
def digitsToNat (l : List Char) : Nat :=
  l.foldl (fun acc c => acc * 10 + (c.toNat - '0'.toNat)) 0

/-- Modelled from the spec: the absolute-reference pattern of the
Reference Resolver (backend `main.py` is not among the checked-in
sources).  At the head of (a suffix of) the lowercased text, recognise
"q<N>" or "question <N>" and return the 1-based number `N`. -/
def refAt (s : List Char) : Option Nat :=
  match s with
  | [] => none
  | c :: rest =>
    if c == 'q' then
      let ds := rest.takeWhile Char.isDigit
      if ds.isEmpty then
        if startsWith "uestion ".data rest then
          let ds2 := (rest.drop 8).takeWhile Char.isDigit
          if ds2.isEmpty then none else some (digitsToNat ds2)
        else none
      else some (digitsToNat ds)
    else none

/-- Modelled from the spec: all absolute references ("Q<N>" /
"question <N>", 1-based) occurring in the lowercased answer text. -/
def absRefs (l : List Char) : List Nat := l.tails.filterMap refAt

/-- Result of the Reference Resolver: resolved 0-based question orders
plus unresolved-reference warnings. -/
structure ResolveResult where
  resolved : List Nat
  unresolved : List String
  deriving DecidableEq, Repr

/-- Modelled from the spec: the "previous question" phrase of the
Reference Resolver — order−1 when it exists, else a warning. -/
def prevPart (lt : List Char) (cur : Nat) (orders : List Nat) : List Nat × List String :=
  if hasSub lt "previous question".data then
    if 1 ≤ cur ∧ (cur - 1) ∈ orders then ([cur - 1], [])
    else ([], ["no previous question"])
  else ([], [])

/-- Modelled from the spec: the "next question" phrase — order+1 when it
exists, else a warning. -/
def nextPart (lt : List Char) (cur : Nat) (orders : List Nat) : List Nat × List String :=
  if hasSub lt "next question".data then
    if (cur + 1) ∈ orders then ([cur + 1], [])
    else ([], ["no next question"])
  else ([], [])

/-- Modelled from the spec: the "first question" phrase — the minimum
order. -/
def firstPart (lt : List Char) (orders : List Nat) : List Nat × List String :=
  if hasSub lt "first question".data then
    match listMin orders with
    | some m => ([m], [])
    | none => ([], ["no first question"])
  else ([], [])

/-- Modelled from the spec: the "last question" phrase — the maximum
order. -/
def lastPart (lt : List Char) (orders : List Nat) : List Nat × List String :=
  if hasSub lt "last question".data then
    match listMax orders with
    | some m => ([m], [])
    | none => ([], ["no last question"])
  else ([], [])

/-- Modelled from the spec: absolute references that fall inside the
survey's order range, converted from 1-based `N` to order `N−1`. -/
def absOkPart (lt : List Char) (orders : List Nat) : List Nat :=
  ((absRefs lt).filter (fun n => decide (1 ≤ n ∧ (n - 1) ∈ orders))).map (fun n => n - 1)

/-- Modelled from the spec: absolute references outside the survey's
order range, reported as warnings naming the literal reference. -/
def absBadPart (lt : List Char) (orders : List Nat) : List String :=
  ((absRefs lt).filter (fun n => ! decide (1 ≤ n ∧ (n - 1) ∈ orders))).map
    (fun n => "Q" ++ Nat.repr n)

/-- Modelled from the spec: the Reference Resolver (backend source not
among the checked-in sources).  Case-insensitive relative phrases
("previous/next/first/last question") and absolute references
("Q<N>"/"question <N>", 1-based, converted to order `N−1`); a reference
that does not map to an existing order yields an unresolved warning;
the resolved set is de-duplicated.  Pure function of its inputs. -/
def resolve (answerText : List Char) (currentOrder : Nat) (allOrders : List Nat) :
    ResolveResult :=
  let lt := lowerL answerText
  { resolved :=
      ((prevPart lt currentOrder allOrders).1 ++ (nextPart lt currentOrder allOrders).1 ++
        (firstPart lt allOrders).1 ++ (lastPart lt allOrders).1 ++
        absOkPart lt allOrders).dedup,
    unresolved :=
      (prevPart lt currentOrder allOrders).2 ++ (nextPart lt currentOrder allOrders).2 ++
        (firstPart lt allOrders).2 ++ (lastPart lt allOrders).2 ++
        absBadPart lt allOrders }

/-- One referenced block inside a scoring context: the referenced
question's 0-based order, its text, and the referenced answer's text
(`none` stands for the literal "not answered yet" marker). -/
structure RefBlock where
  order : Nat
  questionText : String
  answerText : Option String
  deriving DecidableEq, Repr

/-- Scoring context: the scored question's text, its guideline (empty
string if none), and the referenced blocks. -/
structure ContextBlock where
  questionText : String
  guidelineText : String
  refs : List RefBlock
  deriving DecidableEq, Repr

/-- Ascending sort on question orders. -/
def sortNat (l : List Nat) : List Nat := List.insertionSort (· ≤ ·) l

/-- Modelled from the spec: the Context Assembler (backend source not
among the checked-in sources).  Builds the context from the question
text, the guideline, and the resolved references; referenced blocks are
de-duplicated and listed in ascending question order, with the
referenced answer looked up in the caller-supplied answer set. -/
def assemble (questionText guidelineText : String) (resolved : List Nat)
    (qLookup : Nat → String) (aLookup : Nat → Option String) : ContextBlock :=
  { questionText := questionText
    guidelineText := guidelineText
    refs := (sortNat resolved.dedup).map (fun o => ⟨o, qLookup o, aLookup o⟩) }

/-- Scorer output: a score in [0,5], a rationale, and the low-quality
flag. -/
structure ScoreResult where
  score : ℚ
  rationale : String
  lowQuality : Bool
  deriving DecidableEq, Repr

/-- The Scorer capability interface: one method from context to result. -/
structure Scorer where
  score : ContextBlock → ScoreResult

/-- Modelled from the spec: the deterministic stub Scorer (backend
`llm_scorer.py` not among the checked-in sources).  Fixed rule from the
spec: score 5 if the context contains referenced answer text, else 3;
the low-quality flag is `score < threshold`, computed here. -/
def stubScore (threshold : ℚ) (ctx : ContextBlock) : ScoreResult :=
  let s : ℚ := if ctx.refs.any (fun r => r.answerText.isSome) then 5 else 3
  { score := s
    rationale := "stub rationale"
    lowQuality := decide (s < threshold) }

/-- The stub Scorer packaged behind the capability interface. -/
def stubScorer (threshold : ℚ) : Scorer := ⟨stubScore threshold⟩

/-- An Answer record as stored by the persistence layer (fields from the
repository's ER diagram). -/
structure Answer where
  id : Nat
  respondent_id : Nat
  question_id : Nat
  answer_text : String
  flagged : Bool
  score : Option ℚ
  rationale : Option String
  low_quality : Bool
  referenced_question_ids : List Nat
  deriving DecidableEq, Repr

/-- Modelled from the spec: the Re-score Propagator (backend source not
among the checked-in sources).  Returns the ids of every answer in the
respondent's set whose stored referenced-question set contains the
updated question order. -/
def propagate (updatedQuestionOrder : Nat) (answers : List Answer) : List Nat :=
  (answers.filter (fun a => decide (updatedQuestionOrder ∈ a.referenced_question_ids))).map
    (fun a => a.id)

/-! ## Frontend embeddings (from the checked-in JS sources) -/

/-- A save issued by the participant UI: update an existing answer
(PUT `/public/answers/{id}`) or create a new one (POST `/public/answers`). -/
inductive SaveRequest where
  | put (answerId : Nat) (answer_text : String) (flagged : Option Bool)
  | post (respondent_id : Nat) (question_id : Nat) (answer_text : String)
      (flagged : Option Bool)
  deriving DecidableEq, Repr

/-- The `answeredMap` built in `TakeSurvey.jsx` / `ChatSurvey.jsx`:
`answers.forEach(a => m.set(a.question_id, a))`, so a lookup returns the
last answer with the given question id. -/
def answeredMapGet (answers : List Answer) (qid : Nat) : Option Answer :=
  answers.reverse.find? (fun a => a.question_id == qid)

/-- The `save` path of `TakeSurvey.jsx`: PUT to the existing answer's id
when the current question is already answered, otherwise POST a new
answer. -/
def takeSurveySave (answers : List Answer) (respondentId qid : Nat)
    (answerText : String) (flagAction : Option Bool) : SaveRequest :=
  match answeredMapGet answers qid with
  | some existing => .put existing.id answerText flagAction
  | none => .post respondentId qid answerText flagAction

/-- The `onSend` path of `ChatSurvey.jsx`: returns early when the draft
is blank, otherwise PUT to the existing answer's id or POST a new one. -/
def chatOnSend (answers : List Answer) (respondentId qid : Nat)
    (draft : String) : Option SaveRequest :=
  if (trimChars draft.data).isEmpty then none
  else
    match answeredMapGet answers qid with
    | some existing => some (.put existing.id draft none)
    | none => some (.post respondentId qid draft none)

/-- A question payload sent to the backend by the admin UI. -/
structure QPayload where
  text : String
  order_index : Nat
  deriving DecidableEq, Repr

/-- The `createSurvey` payload of `Admin.jsx`:
`qs.map((q, i) => ({ text: (q?.text ?? '').trim(), order_index: i }))`. -/
def createSurveyQuestions (qs : List String) : List QPayload :=
  qs.enum.map (fun p => ⟨trimStr p.2, p.1⟩)

/-- The `addQuestion` request of `Admin.jsx`:
`order_index: (detail?.questions?.length || 0)`. -/
def addQuestionRequest (existingQuestions : List QPayload) (text : String) : QPayload :=
  ⟨text, existingQuestions.length⟩

/-- Chat-mode navigation: `goNext` of `ChatSurvey.jsx`
(`if (idx < questions.length - 1) setIdx(i => i + 1)`), with the JS
comparison taken over `Int` so `questions.length - 1` never wraps. -/
def goNextIdx (n idx : Nat) : Nat :=
  if (idx : Int) < (n : Int) - 1 then idx + 1 else idx

/-- Chat-mode navigation: `goPrev` of `ChatSurvey.jsx`
(`if (idx > 0) setIdx(i => i - 1)`). -/
def goPrevIdx (idx : Nat) : Nat :=
  if 0 < idx then idx - 1 else idx

/-- A navigation action in chat mode. -/
inductive NavOp where
  | next
  | prev
  deriving DecidableEq, Repr

/-- One navigation step. -/
def navStep (n : Nat) (idx : Nat) : NavOp → Nat
  | .next => goNextIdx n idx
  | .prev => goPrevIdx idx

/-- Run a sequence of chat-mode navigation actions from index 0. -/
def runNav (n : Nat) (ops : List NavOp) : Nat :=
  ops.foldl (navStep n) 0

/-- A survey link as listed by the admin API. -/
structure SurveyLink where
  token : String
  is_active : Bool
  deriving DecidableEq, Repr

/-- A survey row of the admin list; `created_at` is a timestamp. -/
structure Survey where
  id : Nat
  title : String
  description : String
  created_at : Int
  link : Option SurveyLink
  deriving DecidableEq, Repr

/-- Truthiness of `s.link?.is_active` in JS. -/
def linkActive (s : Survey) : Bool :=
  match s.link with
  | some l => l.is_active
  | none => false

/-- The status word used by the admin filter:
`s.link?.is_active ? 'active' : 'deprecated'`. -/
def surveyStatus (s : Survey) : String :=
  if linkActive s then "active" else "deprecated"

/-- The filter predicate of `Admin.jsx` `displayedSurveys`: the trimmed
lowercased keyword is a substring of the lowercased title, the
lowercased description, or the status word. -/
def matchesKw (kw : List Char) (s : Survey) : Bool :=
  hasSub (lowerL s.title.data) kw || hasSub (lowerL s.description.data) kw ||
    hasSub (surveyStatus s).data kw

/-- The sort options offered by the admin list's Select control. -/
inductive SortOption where
  | title_asc
  | title_desc
  | created_asc
  | created_desc
  | status_asc
  | status_desc
  deriving DecidableEq, Repr

/-- Lexicographic three-way comparison on character lists, the embedding
of JS `String.prototype.localeCompare`. -/
def lexCmp : List Char → List Char → Int
  | [], [] => 0
  | [], _ :: _ => -1
  | _ :: _, [] => 1
  | a :: as, b :: bs =>
    if a < b then -1 else if b < a then 1 else lexCmp as bs

/-- Rank used by the status comparators: `x.link?.is_active ? 0 : 1`. -/
def statusRank (s : Survey) : Int :=
  if linkActive s then 0 else 1

/-- The comparator `cmp` of `Admin.jsx` `displayedSurveys`, one case per
sort option. -/
def jsCmp : SortOption → Survey → Survey → Int
  | .title_asc, a, b => lexCmp a.title.data b.title.data
  | .title_desc, a, b => lexCmp b.title.data a.title.data
  | .created_asc, a, b => a.created_at - b.created_at
  | .created_desc, a, b => b.created_at - a.created_at
  | .status_asc, a, b => statusRank b - statusRank a
  | .status_desc, a, b => statusRank a - statusRank b

/-- The non-strict order induced by a JS comparator. -/
def cmpLe (opt : SortOption) (a b : Survey) : Prop := jsCmp opt a b ≤ 0

instance (opt : SortOption) : DecidableRel (cmpLe opt) := fun a b => by
  unfold cmpLe; infer_instance

/-- `displayedSurveys` of `Admin.jsx`: trim and lowercase the keyword,
filter when it is non-empty, then sort with the selected comparator
(JS `Array.prototype.sort` is stable; we model it by insertion sort). -/
def displayedSurveys (filterKeyword : String) (opt : SortOption)
    (surveys : List Survey) : List Survey :=
  let kw := lowerL (trimChars filterKeyword.data)
  let list := if kw.isEmpty then surveys else surveys.filter (matchesKw kw)
  List.insertionSort (cmpLe opt) list

/-- The non-strict order of the form-mode answers list comparator
`(a, b) => a.question_id - b.question_id`. -/
def ansCmpLe (a b : Answer) : Prop :=
  (a.question_id : Int) - (b.question_id : Int) ≤ 0

instance : DecidableRel ansCmpLe := fun a b => by
  unfold ansCmpLe; infer_instance

/-- The "Your Answers" list of `TakeSurvey.jsx`:
`answers.sort((a, b) => a.question_id - b.question_id)`. -/
def renderedAnswers (answers : List Answer) : List Answer :=
  List.insertionSort ansCmpLe answers

/-! ## Helper lemmas -/

theorem listMin_mem {l : List Nat} {m : Nat} (h : listMin l = some m) : m ∈ l := by
  induction l generalizing m with
  | nil => simp [listMin] at h
  | cons x xs ih =>
    simp only [listMin] at h
    cases hx : listMin xs with
    | none =>
      rw [hx] at h
      simp only [Option.some.injEq] at h
      exact h ▸ List.mem_cons_self _ _
    | some m2 =>
      rw [hx] at h
      simp only [Option.some.injEq] at h
      rcases min_choice x m2 with hmin | hmin
      · rw [← h, hmin]
        exact List.mem_cons_self _ _
      · rw [← h, hmin]
        exact List.mem_cons_of_mem _ (ih hx)

theorem listMax_mem {l : List Nat} {m : Nat} (h : listMax l = some m) : m ∈ l := by
  induction l generalizing m with
  | nil => simp [listMax] at h
  | cons x xs ih =>
    simp only [listMax] at h
    cases hx : listMax xs with
    | none =>
      rw [hx] at h
      simp only [Option.some.injEq] at h
      exact h ▸ List.mem_cons_self _ _
    | some m2 =>
      rw [hx] at h
      simp only [Option.some.injEq] at h
      rcases max_choice x m2 with hmax | hmax
      · rw [← h, hmax]
        exact List.mem_cons_self _ _
      · rw [← h, hmax]
        exact List.mem_cons_of_mem _ (ih hx)

theorem listMax_le {l : List Nat} {m : Nat} (h : listMax l = some m) :
    ∀ x ∈ l, x ≤ m := by
  induction l generalizing m with
  | nil => simp
  | cons y ys ih =>
    intro x hx
    simp only [listMax] at h
    cases hy : listMax ys with
    | none =>
      rw [hy] at h
      simp only [Option.some.injEq] at h
      have hnil : ys = [] := by
        cases ys with
        | nil => rfl
        | cons z zs =>
          simp only [listMax] at hy
          cases hz : listMax zs <;> rw [hz] at hy <;> simp at hy
      subst hnil
      simp at hx
      omega
    | some m2 =>
      rw [hy] at h
      simp only [Option.some.injEq] at h
      rcases List.mem_cons.1 hx with rfl | hx2
      · rw [← h]
        exact le_max_left _ _
      · have h2 := ih hy x hx2
        rw [← h]
        exact le_trans h2 (le_max_right _ _)

theorem hasSub_nil (hay : List Char) : hasSub hay [] = true := by
  cases hay <;> simp [hasSub, startsWith]

theorem prevPart_fst_subset {lt : List Char} {cur : Nat} {orders : List Nat} {x : Nat}
    (h : x ∈ (prevPart lt cur orders).1) : x ∈ orders := by
  simp only [prevPart] at h
  split_ifs at h with h1 h2
  · simp only [List.mem_singleton] at h
    exact h ▸ h2.2
  · simp at h
  · simp at h

theorem nextPart_fst_subset {lt : List Char} {cur : Nat} {orders : List Nat} {x : Nat}
    (h : x ∈ (nextPart lt cur orders).1) : x ∈ orders := by
  simp only [nextPart] at h
  split_ifs at h with h1 h2
  · simp only [List.mem_singleton] at h
    exact h ▸ h2
  · simp at h
  · simp at h

theorem firstPart_fst_subset {lt : List Char} {orders : List Nat} {x : Nat}
    (h : x ∈ (firstPart lt orders).1) : x ∈ orders := by
  simp only [firstPart] at h
  split_ifs at h with h1
  · cases hmin : listMin orders with
    | none => rw [hmin] at h; simp at h
    | some m =>
      rw [hmin] at h
      simp only [List.mem_singleton] at h
      exact h ▸ listMin_mem hmin
  · simp at h

theorem lastPart_fst_subset {lt : List Char} {orders : List Nat} {x : Nat}
    (h : x ∈ (lastPart lt orders).1) : x ∈ orders := by
  simp only [lastPart] at h
  split_ifs at h with h1
  · cases hmax : listMax orders with
    | none => rw [hmax] at h; simp at h
    | some m =>
      rw [hmax] at h
      simp only [List.mem_singleton] at h
      exact h ▸ listMax_mem hmax
  · simp at h

theorem absOkPart_subset {lt : List Char} {orders : List Nat} {x : Nat}
    (h : x ∈ absOkPart lt orders) : x ∈ orders := by
  unfold absOkPart at h
  obtain ⟨n, hn, rfl⟩ := List.mem_map.1 h
  have hpred := (List.mem_filter.1 hn).2
  simp only [decide_eq_true_eq] at hpred
  exact hpred.2

theorem resolve_resolved_subset {t : List Char} {cur : Nat} {orders : List Nat} {x : Nat}
    (h : x ∈ (resolve t cur orders).resolved) : x ∈ orders := by
  simp only [resolve] at h
  rw [List.mem_dedup] at h
  simp only [List.mem_append] at h
  rcases h with (((h | h) | h) | h) | h
  · exact prevPart_fst_subset h
  · exact nextPart_fst_subset h
  · exact firstPart_fst_subset h
  · exact lastPart_fst_subset h
  · exact absOkPart_subset h

/-! ## Claim theorems -/

/-- C1: for every respondent answer set and every updated question order,
the Re-score Propagator returns exactly the set of answers whose stored
referenced-question-identifier set contains the updated order — no false
positives and no false negatives (answer ids assumed unique, as they are
database identifiers). -/
theorem c1_propagate_exact (o : Nat) (answers : List Answer)
    (hids : (answers.map (fun a => a.id)).Nodup) :
    ∀ a ∈ answers, (a.id ∈ propagate o answers ↔ o ∈ a.referenced_question_ids) := by
  intro a ha
  constructor
  · intro hmem
    unfold propagate at hmem
    obtain ⟨b, hb, hid⟩ := List.mem_map.1 hmem
    have hbf := List.mem_filter.1 hb
    have hba : b = a := List.inj_on_of_nodup_map hids hbf.1 ha hid
    have hdec := hbf.2
    rw [hba] at hdec
    simpa using hdec
  · intro href
    unfold propagate
    exact List.mem_map.2 ⟨a, List.mem_filter.2 ⟨ha, by simpa using href⟩, rfl⟩

/-- A concrete answer referencing question order 0. -/
def ansA : Answer := ⟨1, 1, 10, "a", false, none, none, false, [0]⟩

/-- A concrete answer referencing question order 1. -/
def ansB : Answer := ⟨2, 1, 11, "b", false, none, none, false, [1]⟩

/-- A concrete answer referencing question orders 0 and 2. -/
def ansC : Answer := ⟨3, 1, 12, "c", false, none, none, false, [0, 2]⟩

/-- C1 witness: the propagator's exactness evaluated on a concrete
respondent with three answers of varying reference sets. -/
theorem c1_propagate_exact_witness :
    (([ansA, ansB, ansC].map (fun a => a.id)).Nodup ∧ ansB ∈ [ansA, ansB, ansC]) ∧
      (ansB.id ∈ propagate 0 [ansA, ansB, ansC] ↔ 0 ∈ ansB.referenced_question_ids) :=
  ⟨⟨by decide, by decide⟩,
    c1_propagate_exact 0 [ansA, ansB, ansC] (by decide) ansB (by decide)⟩

/-- C2: when the current question's order is the survey's maximum order,
an answer text containing "next question" yields an unresolved warning
for that phrase and the resolved set gains no element from it (the order
it would name, `cur + 1`, is not resolved). -/
theorem c2_next_at_last (text : List Char) (cur : Nat) (orders : List Nat)
    (hphrase : hasSub (lowerL text) "next question".data = true)
    (hmax : listMax orders = some cur) :
    "no next question" ∈ (resolve text cur orders).unresolved ∧
      (cur + 1) ∉ (resolve text cur orders).resolved := by
  have hnotmem : (cur + 1) ∉ orders := by
    intro hmem
    have := listMax_le hmax _ hmem
    omega
  constructor
  · simp only [resolve, List.mem_append]
    refine Or.inl (Or.inl (Or.inl (Or.inr ?_)))
    simp [nextPart, hphrase, hnotmem]
  · intro hmem
    exact hnotmem (resolve_resolved_subset hmem)

/-- C2 witness: the text "next question" asked at the last order of a
two-question survey. -/
theorem c2_next_at_last_witness :
    (hasSub (lowerL "next question".data) "next question".data = true ∧
        listMax [0, 1] = some 1) ∧
      ("no next question" ∈ (resolve "next question".data 1 [0, 1]).unresolved ∧
        1 + 1 ∉ (resolve "next question".data 1 [0, 1]).resolved) :=
  ⟨⟨by decide, by decide⟩, c2_next_at_last "next question".data 1 [0, 1] (by decide) (by decide)⟩

/-- C3: every absolute reference "Q<N>" with N in [1, questionCount]
resolves to order N−1; outside that range it is reported as an
unresolved warning naming the reference (never a fatal error — `resolve`
is total). -/
theorem c3_absolute_refs (text : List Char) (cur : Nat) (count : Nat) (N : Nat)
    (hN : N ∈ absRefs (lowerL text)) :
    (1 ≤ N ∧ N ≤ count → (N - 1) ∈ (resolve text cur (List.range count)).resolved) ∧
      (N < 1 ∨ count < N →
        ("Q" ++ Nat.repr N) ∈ (resolve text cur (List.range count)).unresolved) := by
  constructor
  · intro hrange
    have hpred : decide (1 ≤ N ∧ (N - 1) ∈ List.range count) = true := by
      simp only [decide_eq_true_eq, List.mem_range]
      omega
    simp only [resolve, List.mem_dedup, List.mem_append]
    refine Or.inr ?_
    unfold absOkPart
    exact List.mem_map.2 ⟨N, List.mem_filter.2 ⟨hN, hpred⟩, rfl⟩
  · intro hrange
    have hpred : (! decide (1 ≤ N ∧ (N - 1) ∈ List.range count)) = true := by
      simp only [List.mem_range, Bool.not_eq_true', decide_eq_false_iff_not]
      omega
    simp only [resolve, List.mem_append]
    refine Or.inr ?_
    unfold absBadPart
    exact List.mem_map.2 ⟨N, List.mem_filter.2 ⟨hN, hpred⟩, rfl⟩

/-- C3 witness: the reference "q2" in a three-question survey resolves to
order 1. -/
theorem c3_absolute_refs_witness :
    (2 ∈ absRefs (lowerL "see q2".data)) ∧
      ((1 ≤ 2 ∧ 2 ≤ 3 → 2 - 1 ∈ (resolve "see q2".data 0 (List.range 3)).resolved) ∧
        (2 < 1 ∨ 3 < 2 →
          ("Q" ++ Nat.repr 2) ∈ (resolve "see q2".data 0 (List.range 3)).unresolved)) :=
  ⟨by decide, c3_absolute_refs "see q2".data 0 3 2 (by decide)⟩

/-- C4: the Context Assembler lists referenced blocks in strictly
ascending question order, and two reference lists that differ only in
mention order produce the same ContextBlock. -/
theorem c4_assemble_order_independent (qt g : String) (ql : Nat → String)
    (al : Nat → Option String) (l₁ l₂ : List Nat) (hperm : l₁.Perm l₂) :
    List.Sorted (· < ·) ((assemble qt g l₁ ql al).refs.map RefBlock.order) ∧
      assemble qt g l₁ ql al = assemble qt g l₂ ql al := by
  constructor
  · have hmap : (assemble qt g l₁ ql al).refs.map RefBlock.order = sortNat l₁.dedup := by
      simp only [assemble, List.map_map]
      exact List.map_id _
    rw [hmap]
    have hsorted : List.Sorted (· ≤ ·) (sortNat l₁.dedup) :=
      List.sorted_insertionSort _ _
    have hnodup : (sortNat l₁.dedup).Nodup :=
      ((List.perm_insertionSort _ _).nodup_iff).2 (List.nodup_dedup _)
    exact hsorted.lt_of_le hnodup
  · have key : sortNat l₁.dedup = sortNat l₂.dedup := by
      refine List.eq_of_perm_of_sorted ?_ (List.sorted_insertionSort _ _)
        (List.sorted_insertionSort _ _)
      exact (List.perm_insertionSort _ _).trans
        (hperm.dedup.trans (List.perm_insertionSort _ _).symm)
    simp [assemble, key]

/-- C4 witness: mentioning Q4 then Q2 (orders 3 and 1) yields the same,
ascending, context as mentioning Q2 then Q4. -/
theorem c4_assemble_order_independent_witness :
    ([3, 1] : List Nat).Perm [1, 3] ∧
      (List.Sorted (· < ·)
          ((assemble "q" "" [3, 1] (fun _ => "") (fun _ => none)).refs.map RefBlock.order) ∧
        assemble "q" "" [3, 1] (fun _ => "") (fun _ => none) =
          assemble "q" "" [1, 3] (fun _ => "") (fun _ => none)) :=
  ⟨by decide,
    c4_assemble_order_independent "q" "" (fun _ => "") (fun _ => none) [3, 1] [1, 3] (by decide)⟩

/-- C5: every result of the stub Scorer has its low-quality flag equal to
(score < threshold), computed inside the Scorer, and its score within
[0, 5]. -/
theorem c5_scorer_contract (threshold : ℚ) (ctx : ContextBlock) :
    (((stubScorer threshold).score ctx).lowQuality = true ↔
        ((stubScorer threshold).score ctx).score < threshold) ∧
      0 ≤ ((stubScorer threshold).score ctx).score ∧
      ((stubScorer threshold).score ctx).score ≤ 5 := by
  refine ⟨?_, ?_, ?_⟩
  · simp [stubScorer, stubScore]
  · simp only [stubScorer, stubScore]
    split_ifs <;> norm_num
  · simp only [stubScorer, stubScore]
    split_ifs <;> norm_num

/-- C6: in both the form-mode and chat-mode save paths, when an answer
for the current question already exists in the respondent's answer set,
the save issues a PUT to that answer's id rather than a POST creating a
second answer for the same question. -/
theorem c6_save_upserts (answers : List Answer) (rid qid : Nat) (text : String)
    (flagAction : Option Bool)
    (hexists : ∃ a ∈ answers, a.question_id = qid)
    (hdraft : (trimChars text.data).isEmpty = false) :
    ∃ ex ∈ answers, ex.question_id = qid ∧
      takeSurveySave answers rid qid text flagAction = SaveRequest.put ex.id text flagAction ∧
      chatOnSend answers rid qid text = some (SaveRequest.put ex.id text none) := by
  have hsome : (answers.reverse.find? (fun a => a.question_id == qid)).isSome := by
    rw [List.find?_isSome]
    obtain ⟨a, ha, hq⟩ := hexists
    exact ⟨a, List.mem_reverse.2 ha, by simp [hq]⟩
  obtain ⟨ex, hex⟩ := Option.isSome_iff_exists.1 hsome
  have hmem : ex ∈ answers := List.mem_reverse.1 (List.mem_of_find?_eq_some hex)
  have hq : ex.question_id = qid := by
    have := List.find?_some hex
    simpa using this
  refine ⟨ex, hmem, hq, ?_, ?_⟩
  · unfold takeSurveySave answeredMapGet
    rw [hex]
  · unfold chatOnSend answeredMapGet
    simp [hdraft, hex]

/-- A concrete stored answer for question 7, used by the C6 witness. -/
def ansW : Answer := ⟨5, 1, 7, "old text", false, none, none, false, []⟩

/-- C6 witness: saving over the single existing answer for question 7
updates answer id 5 in both modes. -/
theorem c6_save_upserts_witness :
    ((∃ a ∈ [ansW], a.question_id = 7) ∧ (trimChars "hi".data).isEmpty = false) ∧
      (∃ ex ∈ [ansW], ex.question_id = 7 ∧
        takeSurveySave [ansW] 1 7 "hi" none = SaveRequest.put ex.id "hi" none ∧
        chatOnSend [ansW] 1 7 "hi" = some (SaveRequest.put ex.id "hi" none)) :=
  ⟨⟨by decide, by decide⟩, c6_save_upserts [ansW] 1 7 "hi" none (by decide) (by decide)⟩

/-- C7: the admin create flow assigns order_index values 0, …, n−1
(pairwise distinct) to the n questions, and a question added to a survey
with k existing questions gets order_index k. -/
theorem c7_order_indices (qs : List String) (existing : List QPayload) (text : String) :
    (createSurveyQuestions qs).map QPayload.order_index = List.range qs.length ∧
      ((createSurveyQuestions qs).map QPayload.order_index).Nodup ∧
      (addQuestionRequest existing text).order_index = existing.length := by
  have h1 : (createSurveyQuestions qs).map QPayload.order_index = List.range qs.length := by
    unfold createSurveyQuestions
    rw [List.map_map]
    have hfun : (QPayload.order_index ∘ fun p : Nat × String =>
        (⟨trimStr p.2, p.1⟩ : QPayload)) = Prod.fst := rfl
    rw [hfun, List.enum_map_fst]
  exact ⟨h1, h1 ▸ List.nodup_range _, rfl⟩

/-- One chat-mode navigation step never leaves [0, n−1]. -/
theorem navStep_le {n : Nat} (hn : 1 ≤ n) {idx : Nat} (h : idx ≤ n - 1) (op : NavOp) :
    navStep n idx op ≤ n - 1 := by
  cases op
  · show goNextIdx n idx ≤ n - 1
    unfold goNextIdx
    split_ifs with hlt
    · omega
    · exact h
  · show goPrevIdx idx ≤ n - 1
    unfold goPrevIdx
    split_ifs with hpos
    · omega
    · exact h

/-- C8: in chat mode, every sequence of goNext/goPrev actions starting
from index 0 keeps the current-question index within [0, n−1]; goNext at
the last question and goPrev at the first leave the index unchanged. -/
theorem c8_nav_bounds (n : Nat) (ops : List NavOp) (hn : 1 ≤ n) :
    runNav n ops ≤ n - 1 ∧ goNextIdx n (n - 1) = n - 1 ∧ goPrevIdx 0 = 0 := by
  refine ⟨?_, ?_, rfl⟩
  · unfold runNav
    have general : ∀ (l : List NavOp) (idx : Nat), idx ≤ n - 1 →
        List.foldl (navStep n) idx l ≤ n - 1 := by
      intro l
      induction l with
      | nil => intro idx h; simpa using h
      | cons op t ih =>
        intro idx h
        exact ih _ (navStep_le hn h op)
    exact general ops 0 (by omega)
  · unfold goNextIdx
    split_ifs with hlt
    · omega
    · rfl

/-- C8 witness: two questions, with moves past both boundaries. -/
theorem c8_nav_bounds_witness :
    1 ≤ 2 ∧
      (runNav 2 [NavOp.next, NavOp.next, NavOp.prev, NavOp.prev, NavOp.prev] ≤ 2 - 1 ∧
        goNextIdx 2 (2 - 1) = 2 - 1 ∧ goPrevIdx 0 = 0) :=
  ⟨by decide, c8_nav_bounds 2 [NavOp.next, NavOp.next, NavOp.prev, NavOp.prev, NavOp.prev]
    (by decide)⟩

theorem lexCmp_total : ∀ a b : List Char, lexCmp a b ≤ 0 ∨ lexCmp b a ≤ 0 := by
  intro a
  induction a with
  | nil =>
    intro b
    left
    cases b <;> simp [lexCmp]
  | cons x as ih =>
    intro b
    cases b with
    | nil =>
      right
      simp [lexCmp]
    | cons y bs =>
      simp only [lexCmp]
      rcases lt_trichotomy x y with h | h | h
      · left
        rw [if_pos h]
        norm_num
      · subst h
        rcases ih bs with hle | hle
        · left
          rw [if_neg (lt_irrefl x), if_neg (lt_irrefl x)]
          exact hle
        · right
          rw [if_neg (lt_irrefl x), if_neg (lt_irrefl x)]
          exact hle
      · right
        rw [if_pos h]
        norm_num

theorem lexCmp_le_trans : ∀ a b c : List Char,
    lexCmp a b ≤ 0 → lexCmp b c ≤ 0 → lexCmp a c ≤ 0 := by
  intro a
  induction a with
  | nil =>
    intro b c _ _
    cases c <;> simp [lexCmp]
  | cons x as ih =>
    intro b c h1 h2
    cases b with
    | nil =>
      exfalso
      simp [lexCmp] at h1
    | cons y bs =>
      cases c with
      | nil =>
        exfalso
        simp [lexCmp] at h2
      | cons z cs =>
        simp only [lexCmp] at h1 h2 ⊢
        have hx : x < y ∨ (x = y ∧ lexCmp as bs ≤ 0) := by
          by_cases hxy : x < y
          · exact Or.inl hxy
          · by_cases hyx : y < x
            · rw [if_neg hxy, if_pos hyx] at h1
              norm_num at h1
            · refine Or.inr ⟨le_antisymm (not_lt.1 hyx) (not_lt.1 hxy), ?_⟩
              rwa [if_neg hxy, if_neg hyx] at h1
        have hy : y < z ∨ (y = z ∧ lexCmp bs cs ≤ 0) := by
          by_cases hyz : y < z
          · exact Or.inl hyz
          · by_cases hzy : z < y
            · rw [if_neg hyz, if_pos hzy] at h2
              norm_num at h2
            · refine Or.inr ⟨le_antisymm (not_lt.1 hzy) (not_lt.1 hyz), ?_⟩
              rwa [if_neg hyz, if_neg hzy] at h2
        rcases hx with hxy | ⟨rfl, hab⟩
        · rcases hy with hyz | ⟨rfl, hbc⟩
          · rw [if_pos (lt_trans hxy hyz)]
            norm_num
          · rw [if_pos hxy]
            norm_num
        · rcases hy with hyz | ⟨rfl, hbc⟩
          · rw [if_pos hyz]
            norm_num
          · rw [if_neg (lt_irrefl x), if_neg (lt_irrefl x)]
            exact ih bs cs hab hbc

instance (opt : SortOption) : IsTotal Survey (cmpLe opt) := by
  constructor
  intro a b
  cases opt
  case title_asc => exact lexCmp_total a.title.data b.title.data
  case title_desc => exact lexCmp_total b.title.data a.title.data
  case created_asc => simp only [cmpLe, jsCmp]; omega
  case created_desc => simp only [cmpLe, jsCmp]; omega
  case status_asc => simp only [cmpLe, jsCmp]; omega
  case status_desc => simp only [cmpLe, jsCmp]; omega

instance (opt : SortOption) : IsTrans Survey (cmpLe opt) := by
  constructor
  intro a b c h1 h2
  cases opt
  case title_asc =>
    simp only [cmpLe, jsCmp] at h1 h2 ⊢
    exact lexCmp_le_trans _ _ _ h1 h2
  case title_desc =>
    simp only [cmpLe, jsCmp] at h1 h2 ⊢
    exact lexCmp_le_trans _ _ _ h2 h1
  case created_asc => simp only [cmpLe, jsCmp] at h1 h2 ⊢; omega
  case created_desc => simp only [cmpLe, jsCmp] at h1 h2 ⊢; omega
  case status_asc => simp only [cmpLe, jsCmp] at h1 h2 ⊢; omega
  case status_desc => simp only [cmpLe, jsCmp] at h1 h2 ⊢; omega

/-- C9: every survey shown by the admin filter matches the trimmed,
lowercased keyword on title, description, or status word; with an empty
(trimmed) keyword the displayed list is a permutation of the input,
ordered by the selected sort comparator. -/
theorem c9_filter_sound_sort_perm (kw : String) (opt : SortOption)
    (surveys : List Survey) :
    (∀ s ∈ displayedSurveys kw opt surveys,
        hasSub (lowerL s.title.data) (lowerL (trimChars kw.data)) = true ∨
          hasSub (lowerL s.description.data) (lowerL (trimChars kw.data)) = true ∨
          hasSub (surveyStatus s).data (lowerL (trimChars kw.data)) = true) ∧
      ((trimChars kw.data).isEmpty = true →
        (displayedSurveys kw opt surveys).Perm surveys ∧
          List.Sorted (cmpLe opt) (displayedSurveys kw opt surveys)) := by
  constructor
  · intro s hs
    simp only [displayedSurveys] at hs
    have hs2 := (List.perm_insertionSort _ _).mem_iff.1 hs
    by_cases hkw : (lowerL (trimChars kw.data)).isEmpty = true
    · left
      have hn : lowerL (trimChars kw.data) = [] := by
        cases h : lowerL (trimChars kw.data) with
        | nil => rfl
        | cons c t => rw [h] at hkw; simp [List.isEmpty] at hkw
      rw [hn]
      exact hasSub_nil _
    · rw [if_neg hkw] at hs2
      have hm := (List.mem_filter.1 hs2).2
      simp only [matchesKw, Bool.or_eq_true] at hm
      tauto
  · intro hempty
    simp only [displayedSurveys]
    have hn : trimChars kw.data = [] := by
      cases h : trimChars kw.data with
      | nil => rfl
      | cons c t => rw [h] at hempty; simp [List.isEmpty] at hempty
    have hkw : (lowerL (trimChars kw.data)).isEmpty = true := by
      rw [hn]
      rfl
    rw [if_pos hkw]
    exact ⟨List.perm_insertionSort _ _, List.sorted_insertionSort _ _⟩

instance : IsTotal Answer ansCmpLe := by
  constructor
  intro a b
  simp only [ansCmpLe]
  omega

instance : IsTrans Answer ansCmpLe := by
  constructor
  intro a b c h1 h2
  simp only [ansCmpLe] at h1 h2 ⊢
  omega

/-- C10: the form-mode "Your Answers" panel shows the answers array
sorted in non-decreasing question_id order — a permutation of the
answers received from the API, regardless of save order. -/
theorem c10_answers_sorted (answers : List Answer) :
    (renderedAnswers answers).Perm answers ∧
      List.Pairwise (fun a b => a.question_id ≤ b.question_id) (renderedAnswers answers) := by
  refine ⟨List.perm_insertionSort _ _, ?_⟩
  have hs : List.Sorted ansCmpLe (renderedAnswers answers) :=
    List.sorted_insertionSort _ _
  refine List.Pairwise.imp (fun hab => ?_) hs
  simp only [ansCmpLe] at hab
  omega

end SurveyBot
